import Mathlib

/-!
# Verification of the voki-toki relay server and client

Shallow embedding of `src/server/index.js` (WebSocket relay with a
two-member room registry) and of the capture/playback logic in
`src/client/src/App.jsx`.

* JavaScript `Map`s become association lists with the `Map` operations
  (`set` updates the first entry in place or appends a fresh key at the
  end, `delete` removes the entry, `get` finds the first entry).
* JavaScript `Set`s of sockets become duplicate-free lists in insertion
  order (`add` appends when the element is new, `delete` erases it).
* Sockets are identified by natural numbers; `readyState === OPEN` is a
  boolean predicate `openS` carried in the state and never mutated by the
  registry operations.
* Outputs (`sendJson` control messages, relayed frames) are collected in
  lists instead of being written to transports.
-/

/-- WebSocket connections are identified by natural numbers. -/
abbrev Sock := Nat

/-- JS `Map.prototype.get`: find the value of the first entry with the key. -/
def lookupA {α β : Type} [DecidableEq α] : List (α × β) → α → Option β
  | [], _ => none
  | (a, b) :: rest, k => if a = k then some b else lookupA rest k

/-- JS `Map.prototype.set`: replace the value of the first entry with the key
in place, or append a fresh entry at the end. -/
def setEntry {α β : Type} [DecidableEq α] : List (α × β) → α → β → List (α × β)
  | [], k, v => [(k, v)]
  | (a, b) :: rest, k, v => if a = k then (k, v) :: rest else (a, b) :: setEntry rest k v

/-- JS `Map.prototype.delete`: remove the first entry with the key. -/
def eraseKey {α β : Type} [DecidableEq α] : List (α × β) → α → List (α × β)
  | [], _ => []
  | (a, b) :: rest, k => if a = k then rest else (a, b) :: eraseKey rest k

/-- JS `Set.prototype.add`: append the element when it is not yet present. -/
def setAdd (l : List Sock) (s : Sock) : List Sock :=
  if s ∈ l then l else l ++ [s]

/-- JSON control messages sent by the server via `sendJson`. -/
inductive SrvMsg where
  | roomState (room : String) (count : Nat) (limit : Nat)
  | errorMsg (code : String) (message : String)
  deriving DecidableEq, Repr

/-- Payload of a relayed WebSocket frame: raw bytes of a binary frame, or
the raw text of a text frame. -/
inductive RelayData where
  | bin (bytes : List Nat)
  | txt (s : String)
  deriving DecidableEq, Repr

/-- Observable server outputs: a `sendJson` control message to a socket,
or a frame relayed to a socket with its binary flag. -/
inductive Out where
  | ctrl (dst : Sock) (msg : SrvMsg)
  | relay (dst : Sock) (data : RelayData) (isBinary : Bool)
  deriving DecidableEq, Repr

/-- The constant `ROOM_LIMIT = 2` in `src/server/index.js`. -/
def ROOM_LIMIT : Nat := 2

/-- Server registry state: `rooms` maps a room id to its member set,
`socketToRoom` maps a socket to the room it is in, `openS` tells whether a
socket's transport is open (`readyState === OPEN`). -/
structure SrvState where
  rooms : List (String × List Sock)
  socketToRoom : List (Sock × String)
  openS : Sock → Bool

/-- Function `sendJson`: send a control message to a socket only when its transport
is open. -/
def sendJson (st : SrvState) (s : Sock) (msg : SrvMsg) : List Out :=
  if st.openS s then [Out.ctrl s msg] else []

/-- Function `getRoomSet`: fetch the member set of a room, inserting an empty set
into the registry when the room is absent.  Returns the member set and the
(possibly extended) registry. -/
def getRoomSet (rooms : List (String × List Sock)) (r : String) :
    List Sock × List (String × List Sock) :=
  match lookupA rooms r with
  | some m => (m, rooms)
  | none => ([], setEntry rooms r [])

/-- Function `leaveRoom`: remove the socket from its room (no-op returning `none`
when the socket is in no room), delete the room when it became empty,
otherwise notify the remaining members with a `room-state` message, and
drop the socket from `socketToRoom`.  Returns the left room (the JS return
value), the new state, and the emitted messages. -/
def leaveRoom (st : SrvState) (s : Sock) : Option String × SrvState × List Out :=
  match lookupA st.socketToRoom s with
  | none => (none, st, [])
  | some room =>
    match lookupA st.rooms room with
    | none =>
      (some room, { st with socketToRoom := eraseKey st.socketToRoom s }, [])
    | some members =>
      let m := members.erase s
      if m.length = 0 then
        (some room,
         { st with
             rooms := eraseKey st.rooms room,
             socketToRoom := eraseKey st.socketToRoom s },
         [])
      else
        (some room,
         { st with
             rooms := setEntry st.rooms room m,
             socketToRoom := eraseKey st.socketToRoom s },
         m.flatMap (fun p => sendJson st p (SrvMsg.roomState room m.length ROOM_LIMIT)))

/-- JS `String.prototype.trim`: strip leading and trailing whitespace.
(Defined over the character list so that it evaluates by `decide`;
`String.trim` in core is defined by well-founded recursion on substrings
and does not reduce in the kernel.) -/
def jsTrim (s : String) : String :=
  ⟨((s.data.dropWhile Char.isWhitespace).reverse.dropWhile Char.isWhitespace).reverse⟩

/-- Function `joinRoom`: trim the requested room id (`room?.trim()`), reject a
missing or empty id with an `invalid-room` error, release the sender's
previous membership via `leaveRoom`, reject a full room with a `room-full`
error, otherwise add the sender and broadcast a `room-state` notification
to every member of the room, the joiner included. -/
def joinRoom (st : SrvState) (s : Sock) (room : Option String) : SrvState × List Out :=
  match room.map jsTrim with
  | none => (st, sendJson st s (SrvMsg.errorMsg "invalid-room" "Room is required."))
  | some cr =>
    if cr = "" then
      (st, sendJson st s (SrvMsg.errorMsg "invalid-room" "Room is required."))
    else
      let res := leaveRoom st s
      let st1 := res.2.1
      let outs1 := res.2.2
      let gr := getRoomSet st1.rooms cr
      if ROOM_LIMIT ≤ gr.1.length then
        ({ st1 with rooms := gr.2 },
         outs1 ++ sendJson st1 s (SrvMsg.errorMsg "room-full" "Room is full."))
      else
        let m := setAdd gr.1 s
        let st2 : SrvState :=
          { rooms := setEntry gr.2 cr m,
            socketToRoom := setEntry st1.socketToRoom s cr,
            openS := st1.openS }
        (st2,
         outs1 ++ m.flatMap (fun p => sendJson st2 p (SrvMsg.roomState cr m.length ROOM_LIMIT)))

/-- Function `broadcastToRoom`: relay a frame to every other member of the sender's
room whose transport is open; deliver nothing when the sender is in no
room or the room is missing from the registry. -/
def broadcastToRoom (st : SrvState) (sender : Sock) (data : RelayData) (isBinary : Bool) :
    List Out :=
  match lookupA st.socketToRoom sender with
  | none => []
  | some room =>
    match lookupA st.rooms room with
    | none => []
    | some members =>
      (members.filter (fun c => c != sender && st.openS c)).map
        (fun c => Out.relay c data isBinary)

/-- A JSON value as it may appear in the `room` field of a parsed
payload, classified by how `room?.trim()` evaluates on it:
* `undef` — the field is absent or `undefined`: optional chaining yields
  `undefined`;
* `nullv` — the field is `null`: optional chaining short-circuits to
  `undefined`;
* `str s` — a string: `trim` exists and trims it;
* `other` — a present non-string value (number, boolean, object, array):
  `room?.trim` is `undefined` and calling it throws a `TypeError`. -/
inductive JsVal where
  | undef
  | nullv
  | str (s : String)
  | other
  deriving DecidableEq, Repr

/-- The fields of a parsed JSON control message that the server reads:
`payload.type` (a string or anything else, the latter collapsed to
`none`) and `payload.room` (an arbitrary JSON value). -/
structure JsonPayload where
  type_ : Option String
  room : JsVal
  deriving DecidableEq, Repr

/-- The call `joinRoom(socket, payload.room)` on an arbitrary JSON value
in the `room` field.  Its first expression `room?.trim()` throws a
`TypeError` when the field holds a present non-string value — before any
registry change or output, so the exceptional result carries nothing —
and otherwise the call is `joinRoom` with the optional string
(`undefined` and `null` both short-circuit to the missing case). -/
def joinRoomJs (st : SrvState) (s : Sock) (room : JsVal) :
    Except Unit (SrvState × List Out) :=
  match room with
  | JsVal.undef => Except.ok (joinRoom st s none)
  | JsVal.nullv => Except.ok (joinRoom st s none)
  | JsVal.str r => Except.ok (joinRoom st s (some r))
  | JsVal.other => Except.error ()

/-- An inbound WebSocket frame: a binary frame, or a text frame together
with the result of `JSON.parse` on it projected to the fields the server
reads.  `none` stands for text that is not valid JSON, and also for a
parsed `null`, whose `payload.type` access itself throws into the same
catch-and-relay path. -/
inductive InMsg where
  | binary (bytes : List Nat)
  | text (raw : String) (parsed : Option JsonPayload)
  deriving DecidableEq, Repr

/-- The `socket.on('message')` handler: intercept parseable text frames of
type `join` / `leave` (normally consumed) and `audio-config` (relayed to
the room), relay every other text frame as opaque content, and relay
binary frames verbatim.  The `try`/`catch` around the control dispatch
falls through to `broadcastToRoom`, so a `join` frame whose `room` field
makes `joinRoom` throw is relayed as opaque content with the registry
unchanged. -/
def handleMessage (st : SrvState) (s : Sock) (msg : InMsg) : SrvState × List Out :=
  match msg with
  | InMsg.binary bytes => (st, broadcastToRoom st s (RelayData.bin bytes) true)
  | InMsg.text raw none => (st, broadcastToRoom st s (RelayData.txt raw) false)
  | InMsg.text raw (some p) =>
    if p.type_ = some "join" then
      match joinRoomJs st s p.room with
      | Except.ok res => res
      | Except.error _ => (st, broadcastToRoom st s (RelayData.txt raw) false)
    else if p.type_ = some "leave" then
      ((leaveRoom st s).2.1, (leaveRoom st s).2.2)
    else if p.type_ = some "audio-config" then
      (st, broadcastToRoom st s (RelayData.txt raw) false)
    else
      (st, broadcastToRoom st s (RelayData.txt raw) false)

/-- The `socket.on('close')` handler calls `leaveRoom`. -/
def handleClose (st : SrvState) (s : Sock) : SrvState × List Out :=
  ((leaveRoom st s).2.1, (leaveRoom st s).2.2)

/-- The initial server state: empty registry. -/
def initState (f : Sock → Bool) : SrvState :=
  { rooms := [], socketToRoom := [], openS := f }

/-- States reachable from the initial state by any sequence of `joinRoom`,
`leaveRoom` (explicit leave message) and connection-close operations (the
close handler also calls `leaveRoom`). -/
inductive Reachable : SrvState → Prop where
  | init (f : Sock → Bool) : Reachable (initState f)
  | join {st : SrvState} (s : Sock) (room : Option String) :
      Reachable st → Reachable (joinRoom st s room).1
  | leave {st : SrvState} (s : Sock) :
      Reachable st → Reachable (leaveRoom st s).2.1
  | close {st : SrvState} (s : Sock) :
      Reachable st → Reachable (handleClose st s).1

/-! ## Lemmas about the `Map` and `Set` embeddings -/

section AssocLemmas

variable {α β : Type} [DecidableEq α]

theorem mem_setEntry {l : List (α × β)} {k : α} {v : β} {p : α × β}
    (h : p ∈ setEntry l k v) : p = (k, v) ∨ p ∈ l := by
  induction l with
  | nil => simpa [setEntry] using h
  | cons hd tl ih =>
    obtain ⟨a, b⟩ := hd
    by_cases hak : a = k
    · simp only [setEntry, if_pos hak, List.mem_cons] at h
      rcases h with h | h
      · exact Or.inl h
      · exact Or.inr (List.mem_cons_of_mem _ h)
    · simp only [setEntry, if_neg hak, List.mem_cons] at h
      rcases h with h | h
      · exact Or.inr (by simp [h])
      · rcases ih h with h' | h'
        · exact Or.inl h'
        · exact Or.inr (List.mem_cons_of_mem _ h')

theorem lookupA_setEntry_self (l : List (α × β)) (k : α) (v : β) :
    lookupA (setEntry l k v) k = some v := by
  induction l with
  | nil => simp [setEntry, lookupA]
  | cons hd tl ih =>
    obtain ⟨a, b⟩ := hd
    by_cases hak : a = k
    · simp [setEntry, if_pos hak, lookupA]
    · simp [setEntry, if_neg hak, lookupA, hak, ih]

theorem lookupA_setEntry_ne {k k2 : α} (h : k ≠ k2) (l : List (α × β)) (v : β) :
    lookupA (setEntry l k2 v) k = lookupA l k := by
  induction l with
  | nil => simp [setEntry, lookupA, Ne.symm h]
  | cons hd tl ih =>
    obtain ⟨a, b⟩ := hd
    by_cases hak : a = k2
    · subst hak
      simp [setEntry, lookupA, Ne.symm h]
    · simp [setEntry, if_neg hak, lookupA, ih]

theorem setEntry_setEntry (l : List (α × β)) (k : α) (a b : β) :
    setEntry (setEntry l k a) k b = setEntry l k b := by
  induction l with
  | nil => simp [setEntry]
  | cons hd tl ih =>
    obtain ⟨x, y⟩ := hd
    by_cases hxk : x = k
    · simp [setEntry, if_pos hxk]
    · simp [setEntry, if_neg hxk, ih]

theorem eraseKey_sublist (l : List (α × β)) (k : α) : (eraseKey l k).Sublist l := by
  induction l with
  | nil => simp [eraseKey]
  | cons hd tl ih =>
    obtain ⟨a, b⟩ := hd
    by_cases hak : a = k
    · simp only [eraseKey, if_pos hak]
      exact List.sublist_cons_self (a, b) tl
    · simpa [eraseKey, if_neg hak] using List.Sublist.cons₂ (a, b) ih

theorem mem_eraseKey {l : List (α × β)} {k : α} {p : α × β}
    (h : p ∈ eraseKey l k) : p ∈ l :=
  (eraseKey_sublist l k).mem h

theorem lookupA_eraseKey_ne {k k2 : α} (h : k ≠ k2) (l : List (α × β)) :
    lookupA (eraseKey l k2) k = lookupA l k := by
  induction l with
  | nil => simp [eraseKey]
  | cons hd tl ih =>
    obtain ⟨a, b⟩ := hd
    by_cases hak : a = k2
    · subst hak
      simp [eraseKey, lookupA, Ne.symm h, ih]
    · simp [eraseKey, if_neg hak, lookupA, ih]

theorem lookupA_eq_none {l : List (α × β)} {k : α} :
    lookupA l k = none ↔ k ∉ l.map Prod.fst := by
  induction l with
  | nil => simp [lookupA]
  | cons hd tl ih =>
    obtain ⟨a, b⟩ := hd
    by_cases hak : a = k
    · subst hak
      simp [lookupA]
    · simp [lookupA, if_neg hak, ih, Ne.symm hak]

theorem lookupA_mem {l : List (α × β)} {k : α} {v : β}
    (h : lookupA l k = some v) : (k, v) ∈ l := by
  induction l with
  | nil => simp [lookupA] at h
  | cons hd tl ih =>
    obtain ⟨a, b⟩ := hd
    by_cases hak : a = k
    · simp only [lookupA] at h
      rw [if_pos hak] at h
      injection h with hbv
      subst hak
      subst hbv
      exact List.mem_cons_self _ _
    · simp only [lookupA, if_neg hak] at h
      exact List.mem_cons_of_mem _ (ih h)

/-- Keys of an association list are pairwise distinct (the `Map`
invariant, automatically maintained by `setEntry` / `eraseKey`). -/
def keysNodup (l : List (α × β)) : Prop := (l.map Prod.fst).Nodup

theorem lookupA_eraseKey_self {l : List (α × β)} {k : α} (h : keysNodup l) :
    lookupA (eraseKey l k) k = none := by
  induction l with
  | nil => simp [eraseKey, lookupA]
  | cons hd tl ih =>
    obtain ⟨a, b⟩ := hd
    have h' : a ∉ tl.map Prod.fst ∧ keysNodup tl := by
      simpa [keysNodup, List.nodup_cons] using h
    by_cases hak : a = k
    · simp only [eraseKey, if_pos hak]
      rw [lookupA_eq_none]
      intro hmem
      exact h'.1 (by rwa [hak])
    · simp only [eraseKey, if_neg hak, lookupA, if_neg hak]
      exact ih h'.2

theorem mem_keys_setEntry {l : List (α × β)} {k x : α} {v : β}
    (h : x ∈ (setEntry l k v).map Prod.fst) : x = k ∨ x ∈ l.map Prod.fst := by
  rcases List.mem_map.1 h with ⟨p, hp, hpx⟩
  rcases mem_setEntry hp with h' | h'
  · left; rw [← hpx, h']
  · right; exact List.mem_map.2 ⟨p, h', hpx⟩

theorem keysNodup_setEntry {l : List (α × β)} {k : α} {v : β}
    (h : keysNodup l) : keysNodup (setEntry l k v) := by
  induction l with
  | nil => simp [setEntry, keysNodup]
  | cons hd tl ih =>
    obtain ⟨a, b⟩ := hd
    have h' : a ∉ tl.map Prod.fst ∧ keysNodup tl := by
      simpa [keysNodup, List.nodup_cons] using h
    by_cases hak : a = k
    · simp only [setEntry, if_pos hak, keysNodup, List.map_cons, List.nodup_cons]
      constructor
      · rw [← hak]
        exact h'.1
      · exact h'.2
    · simp only [setEntry, if_neg hak, keysNodup, List.map_cons, List.nodup_cons]
      refine ⟨?_, ih h'.2⟩
      intro hmem
      rcases mem_keys_setEntry hmem with h'' | h''
      · exact hak h''
      · exact h'.1 h''

theorem keysNodup_eraseKey {l : List (α × β)} {k : α}
    (h : keysNodup l) : keysNodup (eraseKey l k) :=
  List.Nodup.sublist (List.Sublist.map Prod.fst (eraseKey_sublist l k)) h

end AssocLemmas

/-! ## Lemmas about `setAdd` -/

theorem mem_setAdd {l : List Sock} {s x : Sock} :
    x ∈ setAdd l s ↔ x ∈ l ∨ x = s := by
  unfold setAdd
  by_cases hs : s ∈ l
  · rw [if_pos hs]
    constructor
    · exact Or.inl
    · rintro (h | rfl)
      · exact h
      · exact hs
  · rw [if_neg hs]
    simp [List.mem_append]

theorem self_mem_setAdd (l : List Sock) (s : Sock) : s ∈ setAdd l s :=
  mem_setAdd.2 (Or.inr rfl)

theorem setAdd_nodup {l : List Sock} {s : Sock} (h : l.Nodup) : (setAdd l s).Nodup := by
  unfold setAdd
  by_cases hs : s ∈ l
  · rwa [if_pos hs]
  · rw [if_neg hs]
    simp [List.nodup_append, h, hs]

theorem length_setAdd_le (l : List Sock) (s : Sock) :
    (setAdd l s).length ≤ l.length + 1 := by
  unfold setAdd
  by_cases hs : s ∈ l
  · rw [if_pos hs]
    omega
  · rw [if_neg hs]
    simp

theorem length_setAdd_pos (l : List Sock) (s : Sock) : 0 < (setAdd l s).length :=
  List.length_pos_of_mem (self_mem_setAdd l s)

theorem setAdd_of_not_mem {l : List Sock} {s : Sock} (h : s ∉ l) :
    setAdd l s = l ++ [s] := if_neg h

theorem count_setAdd_self_of_not_mem {l : List Sock} {s : Sock} (h : s ∉ l) :
    (setAdd l s).count s = 1 := by
  rw [setAdd_of_not_mem h, List.count_append]
  simp [List.count_eq_zero.2 h]

/-! ## Registry invariants -/

/-- Every room present in the registry has exactly 1 or 2 members. -/
def roomsOk (st : SrvState) : Prop :=
  ∀ p ∈ st.rooms, p.2.length = 1 ∨ p.2.length = 2

/-- Every room's member list is duplicate-free (the JS `Set` invariant). -/
def membersNodup (st : SrvState) : Prop := ∀ p ∈ st.rooms, p.2.Nodup

/-- The room registry has duplicate-free keys (the JS `Map` invariant). -/
def roomKeysNodup (st : SrvState) : Prop := keysNodup st.rooms

/-- Map `socketToRoom` has duplicate-free keys (the JS `Map` invariant). -/
def sockKeysNodup (st : SrvState) : Prop := keysNodup st.socketToRoom

/-- Combined well-formedness invariant of the registry state. -/
structure RegInv (st : SrvState) : Prop where
  ok : roomsOk st
  mnd : membersNodup st
  rkey : roomKeysNodup st
  skey : sockKeysNodup st

/-! ## Branch equations and characterization of `leaveRoom` -/

theorem leaveRoom_not_in {st : SrvState} {s : Sock}
    (h : lookupA st.socketToRoom s = none) : leaveRoom st s = (none, st, []) := by
  unfold leaveRoom
  rw [h]

theorem leaveRoom_orphan {st : SrvState} {s : Sock} {room : String}
    (h1 : lookupA st.socketToRoom s = some room)
    (h2 : lookupA st.rooms room = none) :
    leaveRoom st s =
      (some room, { st with socketToRoom := eraseKey st.socketToRoom s }, []) := by
  unfold leaveRoom
  rw [h1]
  dsimp only
  rw [h2]

theorem leaveRoom_last {st : SrvState} {s : Sock} {room : String} {members : List Sock}
    (h1 : lookupA st.socketToRoom s = some room)
    (h2 : lookupA st.rooms room = some members)
    (h3 : (members.erase s).length = 0) :
    leaveRoom st s =
      (some room,
       { st with
           rooms := eraseKey st.rooms room,
           socketToRoom := eraseKey st.socketToRoom s }, []) := by
  unfold leaveRoom
  rw [h1]
  dsimp only
  rw [h2]
  dsimp only
  rw [if_pos h3]

theorem leaveRoom_notify {st : SrvState} {s : Sock} {room : String} {members : List Sock}
    (h1 : lookupA st.socketToRoom s = some room)
    (h2 : lookupA st.rooms room = some members)
    (h3 : ¬(members.erase s).length = 0) :
    leaveRoom st s =
      (some room,
       { st with
           rooms := setEntry st.rooms room (members.erase s),
           socketToRoom := eraseKey st.socketToRoom s },
       (members.erase s).flatMap
         (fun p => sendJson st p
            (SrvMsg.roomState room (members.erase s).length ROOM_LIMIT))) := by
  unfold leaveRoom
  rw [h1]
  dsimp only
  rw [h2]
  dsimp only
  rw [if_neg h3]

theorem leaveRoom_openS (st : SrvState) (s : Sock) :
    (leaveRoom st s).2.1.openS = st.openS := by
  cases h1 : lookupA st.socketToRoom s with
  | none => rw [leaveRoom_not_in h1]
  | some room =>
    cases h2 : lookupA st.rooms room with
    | none => rw [leaveRoom_orphan h1 h2]
    | some members =>
      by_cases h3 : (members.erase s).length = 0
      · rw [leaveRoom_last h1 h2 h3]
      · rw [leaveRoom_notify h1 h2 h3]

theorem leaveRoom_cases (st : SrvState) (s : Sock) :
    ((leaveRoom st s).2.1.rooms = st.rooms ∧
      ((leaveRoom st s).2.1.socketToRoom = st.socketToRoom ∨
       (leaveRoom st s).2.1.socketToRoom = eraseKey st.socketToRoom s)) ∨
    (∃ room, (leaveRoom st s).2.1.rooms = eraseKey st.rooms room ∧
      (leaveRoom st s).2.1.socketToRoom = eraseKey st.socketToRoom s) ∨
    (∃ room members, lookupA st.rooms room = some members ∧
      members.erase s ≠ [] ∧
      (leaveRoom st s).2.1.rooms = setEntry st.rooms room (members.erase s) ∧
      (leaveRoom st s).2.1.socketToRoom = eraseKey st.socketToRoom s) := by
  cases h1 : lookupA st.socketToRoom s with
  | none =>
    exact Or.inl ⟨by rw [leaveRoom_not_in h1], Or.inl (by rw [leaveRoom_not_in h1])⟩
  | some room =>
    cases h2 : lookupA st.rooms room with
    | none =>
      exact Or.inl ⟨by rw [leaveRoom_orphan h1 h2],
        Or.inr (by rw [leaveRoom_orphan h1 h2])⟩
    | some members =>
      by_cases h3 : (members.erase s).length = 0
      · exact Or.inr (Or.inl ⟨room, by rw [leaveRoom_last h1 h2 h3],
          by rw [leaveRoom_last h1 h2 h3]⟩)
      · refine Or.inr (Or.inr ⟨room, members, h2, ?_,
          by rw [leaveRoom_notify h1 h2 h3], by rw [leaveRoom_notify h1 h2 h3]⟩)
        intro hnil
        exact h3 (by simp [hnil])

theorem leaveRoom_roomsOk {st : SrvState} (s : Sock) (h : roomsOk st) :
    roomsOk (leaveRoom st s).2.1 := by
  intro p hp
  rcases leaveRoom_cases st s with ⟨hr, _⟩ | ⟨room, hr, _⟩ | ⟨room, members, hlk, hne, hr, _⟩
  · rw [hr] at hp
    exact h p hp
  · rw [hr] at hp
    exact h p (mem_eraseKey hp)
  · rw [hr] at hp
    rcases mem_setEntry hp with hpe | hpe
    · subst hpe
      have hm : (room, members) ∈ st.rooms := lookupA_mem hlk
      have hlen : members.length = 1 ∨ members.length = 2 := h _ hm
      have hle : (members.erase s).length ≤ members.length :=
        (List.erase_sublist s members).length_le
      have hpos : 0 < (members.erase s).length := List.length_pos_of_ne_nil hne
      simp only []
      omega
    · exact h p hpe

theorem leaveRoom_membersNodup {st : SrvState} (s : Sock) (h : membersNodup st) :
    membersNodup (leaveRoom st s).2.1 := by
  intro p hp
  rcases leaveRoom_cases st s with ⟨hr, _⟩ | ⟨room, hr, _⟩ | ⟨room, members, hlk, hne, hr, _⟩
  · rw [hr] at hp
    exact h p hp
  · rw [hr] at hp
    exact h p (mem_eraseKey hp)
  · rw [hr] at hp
    rcases mem_setEntry hp with hpe | hpe
    · subst hpe
      exact (h _ (lookupA_mem hlk)).erase s
    · exact h p hpe

theorem leaveRoom_roomKeysNodup {st : SrvState} (s : Sock) (h : roomKeysNodup st) :
    roomKeysNodup (leaveRoom st s).2.1 := by
  rcases leaveRoom_cases st s with ⟨hr, _⟩ | ⟨room, hr, _⟩ | ⟨room, members, _, _, hr, _⟩ <;>
    rw [roomKeysNodup, hr]
  · exact h
  · exact keysNodup_eraseKey h
  · exact keysNodup_setEntry h

theorem leaveRoom_sockKeysNodup {st : SrvState} (s : Sock) (h : sockKeysNodup st) :
    sockKeysNodup (leaveRoom st s).2.1 := by
  rcases leaveRoom_cases st s with ⟨_, hs | hs⟩ | ⟨room, _, hs⟩ | ⟨room, members, _, _, _, hs⟩ <;>
    rw [sockKeysNodup, hs]
  · exact h
  · exact keysNodup_eraseKey h
  · exact keysNodup_eraseKey h
  · exact keysNodup_eraseKey h

theorem leaveRoom_regInv {st : SrvState} (s : Sock) (h : RegInv st) :
    RegInv (leaveRoom st s).2.1 :=
  ⟨leaveRoom_roomsOk s h.ok, leaveRoom_membersNodup s h.mnd,
   leaveRoom_roomKeysNodup s h.rkey, leaveRoom_sockKeysNodup s h.skey⟩

/-! ## Branch equations for `getRoomSet` and `joinRoom` -/

theorem getRoomSet_some {rooms : List (String × List Sock)} {r : String} {m : List Sock}
    (h : lookupA rooms r = some m) : getRoomSet rooms r = (m, rooms) := by
  unfold getRoomSet
  rw [h]

theorem getRoomSet_none {rooms : List (String × List Sock)} {r : String}
    (h : lookupA rooms r = none) : getRoomSet rooms r = ([], setEntry rooms r []) := by
  unfold getRoomSet
  rw [h]

theorem sendJson_congr {st st' : SrvState} (h : st.openS = st'.openS) (s : Sock)
    (msg : SrvMsg) : sendJson st s msg = sendJson st' s msg := by
  unfold sendJson
  rw [h]

theorem joinRoom_noRoom (st : SrvState) (s : Sock) :
    joinRoom st s none =
      (st, sendJson st s (SrvMsg.errorMsg "invalid-room" "Room is required.")) := rfl

theorem joinRoom_emptyRoom {st : SrvState} {s : Sock} {room : String}
    (h : (jsTrim room) = "") :
    joinRoom st s (some room) =
      (st, sendJson st s (SrvMsg.errorMsg "invalid-room" "Room is required.")) := by
  unfold joinRoom
  dsimp only [Option.map]
  rw [if_pos h]

theorem joinRoom_full {st : SrvState} {s : Sock} {room : String}
    (hne : ¬(jsTrim room) = "")
    (hfull : ROOM_LIMIT ≤ (getRoomSet (leaveRoom st s).2.1.rooms (jsTrim room)).1.length) :
    joinRoom st s (some room) =
      ({ (leaveRoom st s).2.1 with
           rooms := (getRoomSet (leaveRoom st s).2.1.rooms (jsTrim room)).2 },
       (leaveRoom st s).2.2 ++
         sendJson (leaveRoom st s).2.1 s (SrvMsg.errorMsg "room-full" "Room is full.")) := by
  unfold joinRoom
  dsimp only [Option.map]
  rw [if_neg hne, if_pos hfull]

theorem joinRoom_add {st : SrvState} {s : Sock} {room : String}
    (hne : ¬(jsTrim room) = "")
    (hlt : (getRoomSet (leaveRoom st s).2.1.rooms (jsTrim room)).1.length < ROOM_LIMIT) :
    joinRoom st s (some room) =
      ({ rooms := setEntry (getRoomSet (leaveRoom st s).2.1.rooms (jsTrim room)).2 (jsTrim room)
            (setAdd (getRoomSet (leaveRoom st s).2.1.rooms (jsTrim room)).1 s),
         socketToRoom := setEntry (leaveRoom st s).2.1.socketToRoom s (jsTrim room),
         openS := (leaveRoom st s).2.1.openS },
       (leaveRoom st s).2.2 ++
         (setAdd (getRoomSet (leaveRoom st s).2.1.rooms (jsTrim room)).1 s).flatMap
           (fun p => sendJson
              { rooms := setEntry (getRoomSet (leaveRoom st s).2.1.rooms (jsTrim room)).2 (jsTrim room)
                   (setAdd (getRoomSet (leaveRoom st s).2.1.rooms (jsTrim room)).1 s),
                socketToRoom := setEntry (leaveRoom st s).2.1.socketToRoom s (jsTrim room),
                openS := (leaveRoom st s).2.1.openS } p
              (SrvMsg.roomState (jsTrim room)
                 (setAdd (getRoomSet (leaveRoom st s).2.1.rooms (jsTrim room)).1 s).length
                 ROOM_LIMIT))) := by
  unfold joinRoom
  dsimp only [Option.map]
  rw [if_neg hne, if_neg (not_le.2 hlt)]

theorem getRoomSet_fst (rooms : List (String × List Sock)) (r : String) :
    (getRoomSet rooms r).1 = (lookupA rooms r).getD [] := by
  cases hlk : lookupA rooms r with
  | none =>
    rw [getRoomSet_none hlk]
    rfl
  | some m =>
    rw [getRoomSet_some hlk]
    rfl

theorem setEntry_getRoomSet (rooms : List (String × List Sock)) (r : String)
    (v : List Sock) : setEntry (getRoomSet rooms r).2 r v = setEntry rooms r v := by
  cases hlk : lookupA rooms r with
  | none =>
    rw [getRoomSet_none hlk]
    exact setEntry_setEntry rooms r [] v
  | some m => rw [getRoomSet_some hlk]

theorem joinRoom_state_cases (st : SrvState) (s : Sock) (room : Option String) :
    (joinRoom st s room).1 = st ∨
    (joinRoom st s room).1 = (leaveRoom st s).2.1 ∨
    (∃ cr : String, ¬cr = "" ∧
      (getRoomSet (leaveRoom st s).2.1.rooms cr).1.length < ROOM_LIMIT ∧
      (joinRoom st s room).1.rooms =
        setEntry (leaveRoom st s).2.1.rooms cr
          (setAdd (getRoomSet (leaveRoom st s).2.1.rooms cr).1 s) ∧
      (joinRoom st s room).1.socketToRoom =
        setEntry (leaveRoom st s).2.1.socketToRoom s cr ∧
      (joinRoom st s room).1.openS = (leaveRoom st s).2.1.openS) := by
  cases room with
  | none => exact Or.inl (by rw [joinRoom_noRoom])
  | some r =>
    by_cases hne : (jsTrim r) = ""
    · exact Or.inl (by rw [joinRoom_emptyRoom hne])
    · by_cases hfull : ROOM_LIMIT ≤ (getRoomSet (leaveRoom st s).2.1.rooms (jsTrim r)).1.length
      · refine Or.inr (Or.inl ?_)
        rw [joinRoom_full hne hfull]
        cases hlk : lookupA (leaveRoom st s).2.1.rooms (jsTrim r) with
        | some m => rw [getRoomSet_some hlk]
        | none =>
          exfalso
          rw [getRoomSet_none hlk] at hfull
          simp [ROOM_LIMIT] at hfull
      · refine Or.inr (Or.inr ⟨(jsTrim r), hne, not_le.1 hfull, ?_, ?_, ?_⟩)
        · rw [joinRoom_add hne (not_le.1 hfull)]
          exact setEntry_getRoomSet _ _ _
        · rw [joinRoom_add hne (not_le.1 hfull)]
        · rw [joinRoom_add hne (not_le.1 hfull)]

theorem getRoomSet_fst_nodup {st : SrvState} (h : membersNodup st) (r : String) :
    (getRoomSet st.rooms r).1.Nodup := by
  cases hlk : lookupA st.rooms r with
  | none =>
    rw [getRoomSet_none hlk]
    exact List.nodup_nil
  | some m =>
    rw [getRoomSet_some hlk]
    exact h _ (lookupA_mem hlk)

theorem joinRoom_regInv {st : SrvState} (s : Sock) (room : Option String)
    (h : RegInv st) : RegInv (joinRoom st s room).1 := by
  have h1 : RegInv (leaveRoom st s).2.1 := leaveRoom_regInv s h
  rcases joinRoom_state_cases st s room with heq | heq | ⟨cr, hne, hlt, hr, hs, ho⟩
  · rw [heq]
    exact h
  · rw [heq]
    exact h1
  · constructor
    · intro p hp
      rw [hr] at hp
      rcases mem_setEntry hp with hpe | hpe
      · subst hpe
        dsimp only
        have hpos := length_setAdd_pos (getRoomSet (leaveRoom st s).2.1.rooms cr).1 s
        have hle := length_setAdd_le (getRoomSet (leaveRoom st s).2.1.rooms cr).1 s
        have hlt2 : (getRoomSet (leaveRoom st s).2.1.rooms cr).1.length < 2 := hlt
        omega
      · exact h1.ok p hpe
    · intro p hp
      rw [hr] at hp
      rcases mem_setEntry hp with hpe | hpe
      · subst hpe
        dsimp only
        exact setAdd_nodup (getRoomSet_fst_nodup h1.mnd cr)
      · exact h1.mnd p hpe
    · rw [roomKeysNodup, hr]
      exact keysNodup_setEntry h1.rkey
    · rw [sockKeysNodup, hs]
      exact keysNodup_setEntry h1.skey

theorem regInv_init (f : Sock → Bool) : RegInv (initState f) := by
  constructor
  · intro p hp
    simp [initState] at hp
  · intro p hp
    simp [initState] at hp
  · simp [roomKeysNodup, keysNodup, initState]
  · simp [sockKeysNodup, keysNodup, initState]

theorem reachable_regInv {st : SrvState} (h : Reachable st) : RegInv st := by
  induction h with
  | init f => exact regInv_init f
  | join s room _ ih => exact joinRoom_regInv s room ih
  | leave s _ ih => exact leaveRoom_regInv s ih
  | close s _ ih => exact leaveRoom_regInv s ih

/-- C1: in every state reachable by any sequence of join, leave and
connection-close operations, every room present in the registry has a
member count of exactly 1 or 2; in particular no room ever holds more
than 2 members, and no zero-member room is ever observable (an emptied
room is deleted within the same operation). -/
theorem C1_registry_invariant (st : SrvState) (h : Reachable st) : roomsOk st :=
  (reachable_regInv h).ok

/-- Witness for C1 at a concrete reachable state. -/
theorem C1_registry_invariant_witness :
    roomsOk (joinRoom (initState (fun _ => true)) 0 (some "r")).1 :=
  C1_registry_invariant _ (Reachable.join 0 (some "r") (Reachable.init _))

/-! ## Finer characterization of `leaveRoom` used by the join claims -/

theorem leaveRoom_split (st : SrvState) (s : Sock) :
    (lookupA st.socketToRoom s = none ∧ leaveRoom st s = (none, st, [])) ∨
    (∃ room, lookupA st.socketToRoom s = some room ∧
      (leaveRoom st s).2.1.socketToRoom = eraseKey st.socketToRoom s ∧
      ((leaveRoom st s).2.1.rooms = st.rooms ∧ lookupA st.rooms room = none ∨
       (leaveRoom st s).2.1.rooms = eraseKey st.rooms room ∨
       (∃ members, lookupA st.rooms room = some members ∧
         (leaveRoom st s).2.1.rooms = setEntry st.rooms room (members.erase s)))) := by
  cases h1 : lookupA st.socketToRoom s with
  | none => exact Or.inl ⟨rfl, leaveRoom_not_in h1⟩
  | some room =>
    refine Or.inr ⟨room, rfl, ?_, ?_⟩
    · cases h2 : lookupA st.rooms room with
      | none => rw [leaveRoom_orphan h1 h2]
      | some members =>
        by_cases h3 : (members.erase s).length = 0
        · rw [leaveRoom_last h1 h2 h3]
        · rw [leaveRoom_notify h1 h2 h3]
    · cases h2 : lookupA st.rooms room with
      | none => exact Or.inl ⟨by rw [leaveRoom_orphan h1 h2], rfl⟩
      | some members =>
        by_cases h3 : (members.erase s).length = 0
        · exact Or.inr (Or.inl (by rw [leaveRoom_last h1 h2 h3]))
        · exact Or.inr (Or.inr ⟨members, rfl, by rw [leaveRoom_notify h1 h2 h3]⟩)

theorem leaveRoom_rooms_other {st : SrvState} {s : Sock} {r : String}
    (hr : lookupA st.socketToRoom s ≠ some r) :
    lookupA (leaveRoom st s).2.1.rooms r = lookupA st.rooms r := by
  rcases leaveRoom_split st s with ⟨h0, heq⟩ | ⟨room, h1, hsk, hcase⟩
  · rw [heq]
  · have hrr : r ≠ room := by
      intro h
      subst h
      exact hr h1
    rcases hcase with ⟨heq, _⟩ | heq | ⟨members, h2, heq⟩
    · rw [heq]
    · rw [heq, lookupA_eraseKey_ne hrr]
    · rw [heq, lookupA_setEntry_ne hrr]

theorem leaveRoom_socket_none {st : SrvState} {s : Sock}
    (hkey : keysNodup st.socketToRoom) :
    lookupA (leaveRoom st s).2.1.socketToRoom s = none := by
  rcases leaveRoom_split st s with ⟨h0, heq⟩ | ⟨room, h1, hsk, _⟩
  · rw [heq]
    exact h0
  · rw [hsk]
    exact lookupA_eraseKey_self hkey

theorem sendJson_of_open {st : SrvState} {s : Sock} (h : st.openS s = true)
    (msg : SrvMsg) : sendJson st s msg = [Out.ctrl s msg] := by
  unfold sendJson
  rw [h]
  rfl

/-- C2: a join request targeting a room that already holds two members
(the sender not among them) fails: a `room-full` error is sent to the
sender, the target room's member set is unchanged, and the sender is
afterwards attached to no room (its previous membership was released
before the capacity check). -/
theorem C2_join_full_room (st : SrvState) (s : Sock) (r : String) (m : List Sock)
    (htrim : (jsTrim r) = r) (hne : r ≠ "")
    (hm : lookupA st.rooms r = some m) (hlen : m.length = 2)
    (hprev : lookupA st.socketToRoom s ≠ some r)
    (hkey : keysNodup st.socketToRoom)
    (hopen : st.openS s = true) :
    lookupA (joinRoom st s (some r)).1.rooms r = some m ∧
    lookupA (joinRoom st s (some r)).1.socketToRoom s = none ∧
    Out.ctrl s (SrvMsg.errorMsg "room-full" "Room is full.") ∈ (joinRoom st s (some r)).2 := by
  have hm1 : lookupA (leaveRoom st s).2.1.rooms r = some m := by
    rw [leaveRoom_rooms_other hprev]
    exact hm
  have hne2 : ¬(jsTrim r) = "" := by
    rw [htrim]
    exact hne
  have hfull : ROOM_LIMIT ≤ (getRoomSet (leaveRoom st s).2.1.rooms (jsTrim r)).1.length := by
    rw [htrim, getRoomSet_some hm1]
    simp [hlen, ROOM_LIMIT]
  rw [joinRoom_full hne2 hfull]
  rw [htrim] at hfull ⊢
  rw [getRoomSet_some hm1]
  refine ⟨hm1, leaveRoom_socket_none hkey, ?_⟩
  have hopen1 : (leaveRoom st s).2.1.openS s = true := by
    rw [leaveRoom_openS]
    exact hopen
  rw [sendJson_of_open hopen1]
  simp

/-- Witness for C2 at a concrete full room. -/
theorem C2_join_full_room_witness :
    lookupA (joinRoom
      { rooms := [("a", [1, 2])], socketToRoom := [(1, "a"), (2, "a")],
        openS := fun _ => true } 3 (some "a")).1.rooms "a" = some [1, 2] ∧
    lookupA (joinRoom
      { rooms := [("a", [1, 2])], socketToRoom := [(1, "a"), (2, "a")],
        openS := fun _ => true } 3 (some "a")).1.socketToRoom 3 = none ∧
    Out.ctrl 3 (SrvMsg.errorMsg "room-full" "Room is full.") ∈ (joinRoom
      { rooms := [("a", [1, 2])], socketToRoom := [(1, "a"), (2, "a")],
        openS := fun _ => true } 3 (some "a")).2 :=
  C2_join_full_room _ 3 "a" [1, 2] (by decide) (by decide) (by decide) (by decide)
    (by decide) (by unfold keysNodup; decide) rfl

/-! ## Branch equations for `broadcastToRoom` and claim C3 -/

theorem broadcastToRoom_none {st : SrvState} {sender : Sock}
    (h : lookupA st.socketToRoom sender = none) (data : RelayData) (isBinary : Bool) :
    broadcastToRoom st sender data isBinary = [] := by
  unfold broadcastToRoom
  rw [h]

theorem broadcastToRoom_orphan {st : SrvState} {sender : Sock} {R : String}
    (h1 : lookupA st.socketToRoom sender = some R)
    (h2 : lookupA st.rooms R = none) (data : RelayData) (isBinary : Bool) :
    broadcastToRoom st sender data isBinary = [] := by
  unfold broadcastToRoom
  rw [h1]
  dsimp only
  rw [h2]

theorem broadcastToRoom_members {st : SrvState} {sender : Sock} {R : String}
    {members : List Sock}
    (h1 : lookupA st.socketToRoom sender = some R)
    (h2 : lookupA st.rooms R = some members) (data : RelayData) (isBinary : Bool) :
    broadcastToRoom st sender data isBinary =
      (members.filter (fun c => c != sender && st.openS c)).map
        (fun c => Out.relay c data isBinary) := by
  unfold broadcastToRoom
  rw [h1]
  dsimp only
  rw [h2]

/-- C3: a payload from a sender in a room with exactly two open members is
delivered, unmodified and with its binary flag intact, to exactly the one
non-sending member; a sender in no room causes zero deliveries; and every
delivered copy goes to an open, non-sender transport (a non-open member is
skipped without error). -/
theorem C3_relay_delivery (st : SrvState) (sender : Sock) (data : RelayData)
    (isBinary : Bool) :
    (∀ (R : String) (m : List Sock),
      lookupA st.socketToRoom sender = some R →
      lookupA st.rooms R = some m →
      m.length = 2 → m.Nodup → sender ∈ m → (∀ p ∈ m, st.openS p = true) →
      ∃ o, o ∈ m ∧ o ≠ sender ∧
        broadcastToRoom st sender data isBinary = [Out.relay o data isBinary]) ∧
    (lookupA st.socketToRoom sender = none →
      broadcastToRoom st sender data isBinary = []) ∧
    (∀ (p : Sock) (d : RelayData) (b : Bool),
      Out.relay p d b ∈ broadcastToRoom st sender data isBinary →
      st.openS p = true ∧ p ≠ sender) := by
  refine ⟨?_, ?_, ?_⟩
  · intro R m h1 h2 hlen hnd hsm hop
    rcases List.length_eq_two.1 hlen with ⟨x, y, rfl⟩
    have hxy : x ≠ y := by simpa using hnd
    have hox : st.openS x = true := hop x (by simp)
    have hoy : st.openS y = true := hop y (by simp)
    rw [broadcastToRoom_members h1 h2 data isBinary]
    rcases (by simpa using hsm : sender = x ∨ sender = y) with rfl | rfl
    · refine ⟨y, by simp, fun h => hxy h.symm, ?_⟩
      have hb : (y != sender) = true := bne_iff_ne.2 (Ne.symm hxy)
      simp [List.filter, hoy, hb]
    · refine ⟨x, by simp, hxy, ?_⟩
      have hb : (x != sender) = true := bne_iff_ne.2 hxy
      simp [List.filter, hox, hb]
  · intro h
    exact broadcastToRoom_none h data isBinary
  · intro p d b hmem
    cases h1 : lookupA st.socketToRoom sender with
    | none =>
      rw [broadcastToRoom_none h1 data isBinary] at hmem
      simp at hmem
    | some R =>
      cases h2 : lookupA st.rooms R with
      | none =>
        rw [broadcastToRoom_orphan h1 h2 data isBinary] at hmem
        simp at hmem
      | some members =>
        rw [broadcastToRoom_members h1 h2 data isBinary] at hmem
        rcases List.mem_map.1 hmem with ⟨c, hcf, hce⟩
        rcases List.mem_filter.1 hcf with ⟨hcm, hcp⟩
        have hcp2 : (c != sender) = true ∧ st.openS c = true := by
          simpa [Bool.and_eq_true] using hcp
        injection hce with hce1 hce2 hce3
        subst hce1
        exact ⟨hcp2.2, bne_iff_ne.1 hcp2.1⟩

/-- Witness for C3 at a concrete two-member room and an unattached sender. -/
theorem C3_relay_delivery_witness :
    (∃ o, o ∈ [1, 2] ∧ o ≠ 1 ∧
      broadcastToRoom
        { rooms := [("a", [1, 2])], socketToRoom := [(1, "a"), (2, "a")],
          openS := fun _ => true } 1 (RelayData.bin [7, 8]) true =
        [Out.relay o (RelayData.bin [7, 8]) true]) ∧
    broadcastToRoom
      { rooms := [("a", [1, 2])], socketToRoom := [(1, "a"), (2, "a")],
        openS := fun _ => true } 3 (RelayData.bin [7, 8]) true = [] :=
  ⟨(C3_relay_delivery _ 1 (RelayData.bin [7, 8]) true).1 "a" [1, 2] (by decide)
      (by decide) (by decide) (by decide) (by decide) (fun p _ => rfl),
   (C3_relay_delivery _ 3 (RelayData.bin [7, 8]) true).2.1 (by decide)⟩

/-! ## The message handler consumes control frames: claim C6 -/

theorem sendJson_no_relay (st : SrvState) (s : Sock) (msg : SrvMsg)
    (dst : Sock) (d : RelayData) (b : Bool) :
    Out.relay dst d b ∉ sendJson st s msg := by
  unfold sendJson
  by_cases h : st.openS s
  · rw [if_pos h]
    simp
  · rw [if_neg h]
    simp

theorem leaveRoom_no_relay (st : SrvState) (s : Sock)
    (dst : Sock) (d : RelayData) (b : Bool) :
    Out.relay dst d b ∉ (leaveRoom st s).2.2 := by
  intro hmem
  cases h1 : lookupA st.socketToRoom s with
  | none =>
    rw [leaveRoom_not_in h1] at hmem
    simp at hmem
  | some room =>
    cases h2 : lookupA st.rooms room with
    | none =>
      rw [leaveRoom_orphan h1 h2] at hmem
      simp at hmem
    | some members =>
      by_cases h3 : (members.erase s).length = 0
      · rw [leaveRoom_last h1 h2 h3] at hmem
        simp at hmem
      · rw [leaveRoom_notify h1 h2 h3] at hmem
        rcases List.mem_flatMap.1 hmem with ⟨p, _, hp⟩
        exact sendJson_no_relay _ _ _ _ _ _ hp

theorem joinRoom_no_relay (st : SrvState) (s : Sock) (room : Option String)
    (dst : Sock) (d : RelayData) (b : Bool) :
    Out.relay dst d b ∉ (joinRoom st s room).2 := by
  intro hmem
  cases room with
  | none =>
    rw [joinRoom_noRoom] at hmem
    exact sendJson_no_relay _ _ _ _ _ _ hmem
  | some r =>
    by_cases hne : jsTrim r = ""
    · rw [joinRoom_emptyRoom hne] at hmem
      exact sendJson_no_relay _ _ _ _ _ _ hmem
    · by_cases hfull : ROOM_LIMIT ≤ (getRoomSet (leaveRoom st s).2.1.rooms (jsTrim r)).1.length
      · rw [joinRoom_full hne hfull] at hmem
        rcases List.mem_append.1 hmem with hmem | hmem
        · exact leaveRoom_no_relay _ _ _ _ _ hmem
        · exact sendJson_no_relay _ _ _ _ _ _ hmem
      · rw [joinRoom_add hne (not_le.1 hfull)] at hmem
        rcases List.mem_append.1 hmem with hmem | hmem
        · exact leaveRoom_no_relay _ _ _ _ _ hmem
        · rcases List.mem_flatMap.1 hmem with ⟨p, _, hp⟩
          exact sendJson_no_relay _ _ _ _ _ _ hp

theorem handleMessage_join_undef {st : SrvState} {s : Sock} {raw : String}
    {p : JsonPayload} (h : p.type_ = some "join") (hr : p.room = JsVal.undef) :
    handleMessage st s (InMsg.text raw (some p)) = joinRoom st s none := by
  unfold handleMessage
  dsimp only
  rw [if_pos h, hr]
  rfl

theorem handleMessage_join_nullv {st : SrvState} {s : Sock} {raw : String}
    {p : JsonPayload} (h : p.type_ = some "join") (hr : p.room = JsVal.nullv) :
    handleMessage st s (InMsg.text raw (some p)) = joinRoom st s none := by
  unfold handleMessage
  dsimp only
  rw [if_pos h, hr]
  rfl

theorem handleMessage_join_str {st : SrvState} {s : Sock} {raw : String}
    {p : JsonPayload} {r : String} (h : p.type_ = some "join")
    (hr : p.room = JsVal.str r) :
    handleMessage st s (InMsg.text raw (some p)) = joinRoom st s (some r) := by
  unfold handleMessage
  dsimp only
  rw [if_pos h, hr]
  rfl

theorem handleMessage_join_throw {st : SrvState} {s : Sock} {raw : String}
    {p : JsonPayload} (h : p.type_ = some "join") (hr : p.room = JsVal.other) :
    handleMessage st s (InMsg.text raw (some p)) =
      (st, broadcastToRoom st s (RelayData.txt raw) false) := by
  unfold handleMessage
  dsimp only
  rw [if_pos h, hr]
  rfl

theorem handleMessage_leave {st : SrvState} {s : Sock} {raw : String} {p : JsonPayload}
    (h1 : p.type_ ≠ some "join") (h2 : p.type_ = some "leave") :
    handleMessage st s (InMsg.text raw (some p)) =
      ((leaveRoom st s).2.1, (leaveRoom st s).2.2) := by
  unfold handleMessage
  dsimp only
  rw [if_neg h1, if_pos h2]

theorem handleMessage_config {st : SrvState} {s : Sock} {raw : String} {p : JsonPayload}
    (h1 : p.type_ ≠ some "join") (h2 : p.type_ ≠ some "leave")
    (h3 : p.type_ = some "audio-config") :
    handleMessage st s (InMsg.text raw (some p)) =
      (st, broadcastToRoom st s (RelayData.txt raw) false) := by
  unfold handleMessage
  dsimp only
  rw [if_neg h1, if_neg h2, if_pos h3]

theorem handleMessage_other {st : SrvState} {s : Sock} {raw : String} {p : JsonPayload}
    (h1 : p.type_ ≠ some "join") (h2 : p.type_ ≠ some "leave")
    (h3 : p.type_ ≠ some "audio-config") :
    handleMessage st s (InMsg.text raw (some p)) =
      (st, broadcastToRoom st s (RelayData.txt raw) false) := by
  unfold handleMessage
  dsimp only
  rw [if_neg h1, if_neg h2, if_neg h3]

/-- C6 counterexample to the claim as stated: a text frame parsing as
JSON with type `join` whose `room` field is a present non-string value
(e.g. the frame `join1` standing for a join with a numeric room) is not
consumed — `room?.trim()` throws, the catch falls through, and the frame
is relayed verbatim to the peer. -/
theorem C6_control_interception_counterexample :
    (⟨some "join", JsVal.other⟩ : JsonPayload).type_ = some "join" ∧
    (handleMessage
      { rooms := [("a", [1, 2])], socketToRoom := [(1, "a"), (2, "a")],
        openS := fun _ => true } 1
      (InMsg.text "join1" (some ⟨some "join", JsVal.other⟩))).2 =
      [Out.relay 2 (RelayData.txt "join1") false] := by
  decide

/-- C6 (amended): a text frame parsing as JSON with type `join` whose
`room` field is absent, `undefined`, `null` or a string is consumed
(relayed to no one), as is every `leave` frame; a `join` frame whose
`room` field is a present non-string value makes `joinRoom` throw, is
caught, and is relayed verbatim as opaque content with the registry
unchanged; `audio-config` text frames are relayed verbatim to the
sender's room; every other text frame (other JSON types and unparseable
JSON alike) is relayed verbatim as opaque content; binary frames are
always relayed verbatim, never interpreted. -/
theorem C6_control_interception (st : SrvState) (s : Sock) :
    (∀ (raw : String) (p : JsonPayload),
      (p.type_ = some "join" ∧ p.room ≠ JsVal.other) ∨ p.type_ = some "leave" →
      ∀ (dst : Sock) (d : RelayData) (b : Bool),
        Out.relay dst d b ∉ (handleMessage st s (InMsg.text raw (some p))).2) ∧
    (∀ (raw : String) (p : JsonPayload),
      p.type_ = some "join" → p.room = JsVal.other →
      handleMessage st s (InMsg.text raw (some p)) =
        (st, broadcastToRoom st s (RelayData.txt raw) false)) ∧
    (∀ (raw : String) (p : JsonPayload), p.type_ = some "audio-config" →
      (handleMessage st s (InMsg.text raw (some p))).2 =
        broadcastToRoom st s (RelayData.txt raw) false) ∧
    (∀ (raw : String) (p : JsonPayload),
      p.type_ ≠ some "join" → p.type_ ≠ some "leave" →
      p.type_ ≠ some "audio-config" →
      (handleMessage st s (InMsg.text raw (some p))).2 =
        broadcastToRoom st s (RelayData.txt raw) false) ∧
    (∀ raw : String, (handleMessage st s (InMsg.text raw none)).2 =
      broadcastToRoom st s (RelayData.txt raw) false) ∧
    (∀ bytes : List Nat, (handleMessage st s (InMsg.binary bytes)).2 =
      broadcastToRoom st s (RelayData.bin bytes) true) := by
  refine ⟨?_, ?_, ?_, ?_, fun raw => rfl, fun bytes => rfl⟩
  · intro raw p hty dst d b hmem
    rcases hty with ⟨hj, hro⟩ | hl
    · cases hroom : p.room with
      | undef =>
        rw [handleMessage_join_undef hj hroom] at hmem
        exact joinRoom_no_relay _ _ _ _ _ _ hmem
      | nullv =>
        rw [handleMessage_join_nullv hj hroom] at hmem
        exact joinRoom_no_relay _ _ _ _ _ _ hmem
      | str r =>
        rw [handleMessage_join_str hj hroom] at hmem
        exact joinRoom_no_relay _ _ _ _ _ _ hmem
      | other => exact hro hroom
    · have hnj : p.type_ ≠ some "join" := by
        rw [hl]
        decide
      rw [handleMessage_leave hnj hl] at hmem
      exact leaveRoom_no_relay _ _ _ _ _ hmem
  · intro raw p hj hro
    exact handleMessage_join_throw hj hro
  · intro raw p h3
    have h1 : p.type_ ≠ some "join" := by
      rw [h3]
      decide
    have h2 : p.type_ ≠ some "leave" := by
      rw [h3]
      decide
    rw [handleMessage_config h1 h2 h3]
  · intro raw p h1 h2 h3
    rw [handleMessage_other h1 h2 h3]

/-- Witness for the amended C6: a `join` frame with a string room relays
nothing, a `join` frame with a present non-string room is relayed as
opaque content with the state unchanged, and an `audio-config` frame and
an unparseable frame are relayed as opaque content. -/
theorem C6_control_interception_witness :
    Out.relay 2 (RelayData.txt "x") false ∉
      (handleMessage
        { rooms := [("a", [1, 2])], socketToRoom := [(1, "a"), (2, "a")],
          openS := fun _ => true } 1
        (InMsg.text "x" (some ⟨some "join", JsVal.str "a"⟩))).2 ∧
    handleMessage
      { rooms := [("a", [1, 2])], socketToRoom := [(1, "a"), (2, "a")],
        openS := fun _ => true } 1
      (InMsg.text "join1" (some ⟨some "join", JsVal.other⟩)) =
      ({ rooms := [("a", [1, 2])], socketToRoom := [(1, "a"), (2, "a")],
          openS := fun _ => true },
        broadcastToRoom
          { rooms := [("a", [1, 2])], socketToRoom := [(1, "a"), (2, "a")],
            openS := fun _ => true } 1 (RelayData.txt "join1") false) ∧
    (handleMessage
      { rooms := [("a", [1, 2])], socketToRoom := [(1, "a"), (2, "a")],
        openS := fun _ => true } 1
      (InMsg.text "cfg" (some ⟨some "audio-config", JsVal.undef⟩))).2 =
      broadcastToRoom
        { rooms := [("a", [1, 2])], socketToRoom := [(1, "a"), (2, "a")],
          openS := fun _ => true } 1 (RelayData.txt "cfg") false ∧
    (handleMessage
      { rooms := [("a", [1, 2])], socketToRoom := [(1, "a"), (2, "a")],
        openS := fun _ => true } 1 (InMsg.text "oops" none)).2 =
      broadcastToRoom
        { rooms := [("a", [1, 2])], socketToRoom := [(1, "a"), (2, "a")],
          openS := fun _ => true } 1 (RelayData.txt "oops") false :=
  ⟨(C6_control_interception _ 1).1 "x" ⟨some "join", JsVal.str "a"⟩
      (Or.inl ⟨rfl, by decide⟩) 2 (RelayData.txt "x") false,
   (C6_control_interception _ 1).2.1 "join1" ⟨some "join", JsVal.other⟩ rfl rfl,
   (C6_control_interception _ 1).2.2.1 "cfg" ⟨some "audio-config", JsVal.undef⟩ rfl,
   (C6_control_interception _ 1).2.2.2.2.1 "oops"⟩

/-! ## Claim C7: join notification -/

/-- C7: every successful join broadcasts a `room-state` message carrying
the room id, the current member count and the capacity limit 2 to every
member of the room whose transport is open, the new joiner included
(which is a member of the resulting member set). -/
theorem C7_join_notification (st : SrvState) (s : Sock) (r : String)
    (htrim : jsTrim r = r) (hne : r ≠ "")
    (hlt : (getRoomSet (leaveRoom st s).2.1.rooms r).1.length < ROOM_LIMIT) :
    ROOM_LIMIT = 2 ∧
    ∃ m : List Sock,
      lookupA (joinRoom st s (some r)).1.rooms r = some m ∧ s ∈ m ∧
      ∀ p ∈ m, st.openS p = true →
        Out.ctrl p (SrvMsg.roomState r m.length ROOM_LIMIT) ∈ (joinRoom st s (some r)).2 := by
  have hne2 : ¬jsTrim r = "" := by
    rw [htrim]
    exact hne
  have hlt2 : (getRoomSet (leaveRoom st s).2.1.rooms (jsTrim r)).1.length < ROOM_LIMIT := by
    rw [htrim]
    exact hlt
  rw [joinRoom_add hne2 hlt2, htrim]
  refine ⟨rfl, setAdd (getRoomSet (leaveRoom st s).2.1.rooms r).1 s,
    lookupA_setEntry_self _ _ _, self_mem_setAdd _ _, ?_⟩
  intro p hp hopen
  refine List.mem_append.2 (Or.inr ?_)
  refine List.mem_flatMap.2 ⟨p, hp, ?_⟩
  have hopen2 : (leaveRoom st s).2.1.openS p = true := by
    rw [leaveRoom_openS]
    exact hopen
  simp only [sendJson]
  rw [if_pos hopen2]
  simp

/-- Witness for C7: a second member joining a one-member room. -/
theorem C7_join_notification_witness :
    ROOM_LIMIT = 2 ∧
    ∃ m : List Sock,
      lookupA (joinRoom
        { rooms := [("a", [1])], socketToRoom := [(1, "a")],
          openS := fun _ => true } 2 (some "a")).1.rooms "a" = some m ∧
      2 ∈ m ∧
      ∀ p ∈ m, (fun _ => true : Sock → Bool) p = true →
        Out.ctrl p (SrvMsg.roomState "a" m.length ROOM_LIMIT) ∈
          (joinRoom
            { rooms := [("a", [1])], socketToRoom := [(1, "a")],
              openS := fun _ => true } 2 (some "a")).2 :=
  C7_join_notification _ 2 "a" (by decide) (by decide) (by decide)

/-! ## Claim C9: rejoining one's own room never fails -/

theorem sendJson_mem {st : SrvState} {q : Sock} {msg : SrvMsg} {out : Out}
    (h : out ∈ sendJson st q msg) : out = Out.ctrl q msg := by
  unfold sendJson at h
  by_cases ho : st.openS q
  · rw [if_pos ho] at h
    simpa using h
  · rw [if_neg ho] at h
    simp at h

/-- C9: a connection that is already a member of its target room can
always rejoin it: the operation never emits a `room-full` error (the
sender is removed from the room before the capacity check), membership is
restored with the same member count, and in the two-member all-open case
the remaining member is first notified with the decremented count 1 and
then both members (the rejoiner included) are notified with the restored
count 2, in that order. -/
theorem C9_same_room_rejoin (st : SrvState) (c : Sock) (R : String) (m : List Sock)
    (htrim : jsTrim R = R) (hne : R ≠ "")
    (hsk : lookupA st.socketToRoom c = some R)
    (hm : lookupA st.rooms R = some m)
    (hcm : c ∈ m) (hnd : m.Nodup) (hlen : m.length ≤ 2)
    (hrk : keysNodup st.rooms) :
    (∀ p : Sock, Out.ctrl p (SrvMsg.errorMsg "room-full" "Room is full.") ∉
        (joinRoom st c (some R)).2) ∧
    (∃ m2 : List Sock, lookupA (joinRoom st c (some R)).1.rooms R = some m2 ∧
      c ∈ m2 ∧ m2.length = m.length) ∧
    (m.length = 2 → (∀ p ∈ m, st.openS p = true) →
      ∃ o, m.erase c = [o] ∧
        (joinRoom st c (some R)).2 =
          [Out.ctrl o (SrvMsg.roomState R 1 ROOM_LIMIT),
           Out.ctrl o (SrvMsg.roomState R 2 ROOM_LIMIT),
           Out.ctrl c (SrvMsg.roomState R 2 ROOM_LIMIT)]) := by
  have hne2 : ¬jsTrim R = "" := by
    rw [htrim]
    exact hne
  have hpos : 0 < m.length := List.length_pos_of_mem hcm
  have hcases : m.length = 1 ∨ m.length = 2 := by omega
  rcases hcases with h1 | h2
  · rcases List.length_eq_one.1 h1 with ⟨a, rfl⟩
    have hac : c = a := by simpa using hcm
    subst hac
    have h3 : (([c] : List Sock).erase c).length = 0 := by simp
    have hleq := leaveRoom_last hsk hm h3
    have hlk1 : lookupA (leaveRoom st c).2.1.rooms R = none := by
      rw [hleq]
      exact lookupA_eraseKey_self hrk
    have hgr := getRoomSet_none hlk1
    have hlt : (getRoomSet (leaveRoom st c).2.1.rooms (jsTrim R)).1.length < ROOM_LIMIT := by
      rw [htrim, hgr]
      simp [ROOM_LIMIT]
    have hsa : setAdd ([] : List Sock) c = [c] := by simp [setAdd]
    rw [joinRoom_add hne2 hlt, htrim, hgr]
    refine ⟨?_, ?_, ?_⟩
    · intro p hmem
      rw [hleq] at hmem
      rcases List.mem_append.1 hmem with hmem | hmem
      · simp at hmem
      · rcases List.mem_flatMap.1 hmem with ⟨q, _, hq⟩
        have hqe := sendJson_mem hq
        simp at hqe
    · refine ⟨setAdd ([] : List Sock) c, lookupA_setEntry_self _ _ _,
        self_mem_setAdd _ _, ?_⟩
      simp [hsa]
    · intro h2len
      simp at h2len
  · have hel : (m.erase c).length = 1 := by
      rw [List.length_erase_of_mem hcm, h2]
    have h3 : ¬(m.erase c).length = 0 := by omega
    have hleq := leaveRoom_notify hsk hm h3
    have hlk1 : lookupA (leaveRoom st c).2.1.rooms R = some (m.erase c) := by
      rw [hleq]
      exact lookupA_setEntry_self _ _ _
    have hgr := getRoomSet_some hlk1
    have hlt : (getRoomSet (leaveRoom st c).2.1.rooms (jsTrim R)).1.length < ROOM_LIMIT := by
      rw [htrim, hgr]
      simp [ROOM_LIMIT, hel]
    have hnm : c ∉ m.erase c := hnd.not_mem_erase
    have hsa : setAdd (m.erase c) c = m.erase c ++ [c] := setAdd_of_not_mem hnm
    rw [joinRoom_add hne2 hlt, htrim, hgr]
    refine ⟨?_, ?_, ?_⟩
    · intro p hmem
      rcases List.mem_append.1 hmem with hmem | hmem
      · rw [hleq] at hmem
        rcases List.mem_flatMap.1 hmem with ⟨q, _, hq⟩
        have hqe := sendJson_mem hq
        simp at hqe
      · rcases List.mem_flatMap.1 hmem with ⟨q, _, hq⟩
        have hqe := sendJson_mem hq
        simp at hqe
    · refine ⟨setAdd (m.erase c) c, lookupA_setEntry_self _ _ _,
        self_mem_setAdd _ _, ?_⟩
      simp [hsa, hel, h2]
    · intro _ hall
      rcases List.length_eq_one.1 hel with ⟨o, ho⟩
      have homem : o ∈ m := (List.erase_sublist c m).mem (ho ▸ List.mem_singleton_self o)
      have hopo : st.openS o = true := hall o homem
      have hopc : st.openS c = true := hall c hcm
      refine ⟨o, ho, ?_⟩
      rw [hleq]
      dsimp only
      rw [hsa, ho]
      simp [sendJson, leaveRoom_openS, hopo, hopc, ROOM_LIMIT, hel]

/-- Witness for C9: socket 1 rejoins the full room it already occupies. -/
theorem C9_same_room_rejoin_witness :
    Out.ctrl 1 (SrvMsg.errorMsg "room-full" "Room is full.") ∉
      (joinRoom
        { rooms := [("a", [1, 2])], socketToRoom := [(1, "a"), (2, "a")],
          openS := fun _ => true } 1 (some "a")).2 ∧
    (∃ m2 : List Sock, lookupA (joinRoom
        { rooms := [("a", [1, 2])], socketToRoom := [(1, "a"), (2, "a")],
          openS := fun _ => true } 1 (some "a")).1.rooms "a" = some m2 ∧
      1 ∈ m2 ∧ m2.length = ([1, 2] : List Sock).length) ∧
    (∃ o, ([1, 2] : List Sock).erase 1 = [o] ∧
      (joinRoom
        { rooms := [("a", [1, 2])], socketToRoom := [(1, "a"), (2, "a")],
          openS := fun _ => true } 1 (some "a")).2 =
        [Out.ctrl o (SrvMsg.roomState "a" 1 ROOM_LIMIT),
         Out.ctrl o (SrvMsg.roomState "a" 2 ROOM_LIMIT),
         Out.ctrl 1 (SrvMsg.roomState "a" 2 ROOM_LIMIT)]) := by
  have T := C9_same_room_rejoin
    { rooms := [("a", [1, 2])], socketToRoom := [(1, "a"), (2, "a")],
      openS := fun _ => true } 1 "a" [1, 2] (by decide) (by decide) (by decide)
    (by decide) (by decide) (by decide) (by decide) (by unfold keysNodup; decide)
  exact ⟨T.1 1, T.2.1, T.2.2 (by decide) (fun p _ => rfl)⟩

/-! ## Claim C8: leave idempotence and the join-leave-join round trip -/

theorem leave_rejoin_core (Y : SrvState) (c : Sock) (R : String) (m1 : List Sock)
    (htrim : jsTrim R = R) (hne : R ≠ "")
    (hsk : lookupA Y.socketToRoom c = some R)
    (hm : lookupA Y.rooms R = some m1)
    (hcm : c ∈ m1) (hnd : m1.Nodup) (hlen : m1.length ≤ 2)
    (hrk : keysNodup Y.rooms) (hsknd : keysNodup Y.socketToRoom) :
    ∃ mf : List Sock,
      lookupA (joinRoom (leaveRoom Y c).2.1 c (some R)).1.rooms R = some mf ∧
      mf.count c = 1 ∧
      lookupA (joinRoom (leaveRoom Y c).2.1 c (some R)).1.socketToRoom c = some R := by
  have hne2 : ¬jsTrim R = "" := by
    rw [htrim]
    exact hne
  have hpos : 0 < m1.length := List.length_pos_of_mem hcm
  have hsock2 : lookupA (leaveRoom Y c).2.1.socketToRoom c = none :=
    leaveRoom_socket_none hsknd
  have hlv2 : leaveRoom (leaveRoom Y c).2.1 c = (none, (leaveRoom Y c).2.1, []) :=
    leaveRoom_not_in hsock2
  rcases (by omega : m1.length = 1 ∨ m1.length = 2) with h1 | h2
  · rcases List.length_eq_one.1 h1 with ⟨a, rfl⟩
    have hac : c = a := by simpa using hcm
    subst hac
    have h3 : (([c] : List Sock).erase c).length = 0 := by simp
    have hleq := leaveRoom_last hsk hm h3
    have hlkR : lookupA (leaveRoom Y c).2.1.rooms R = none := by
      rw [hleq]
      exact lookupA_eraseKey_self hrk
    have hgr := getRoomSet_none hlkR
    have hlt : (getRoomSet (leaveRoom (leaveRoom Y c).2.1 c).2.1.rooms
        (jsTrim R)).1.length < ROOM_LIMIT := by
      rw [hlv2, htrim, hgr]
      simp [ROOM_LIMIT]
    rw [joinRoom_add hne2 hlt, htrim, hlv2, hgr]
    refine ⟨setAdd [] c, lookupA_setEntry_self _ _ _, ?_, lookupA_setEntry_self _ _ _⟩
    simp [setAdd]
  · have hel : (m1.erase c).length = 1 := by
      rw [List.length_erase_of_mem hcm, h2]
    have h3 : ¬(m1.erase c).length = 0 := by omega
    have hleq := leaveRoom_notify hsk hm h3
    have hlkR : lookupA (leaveRoom Y c).2.1.rooms R = some (m1.erase c) := by
      rw [hleq]
      exact lookupA_setEntry_self _ _ _
    have hgr := getRoomSet_some hlkR
    have hlt : (getRoomSet (leaveRoom (leaveRoom Y c).2.1 c).2.1.rooms
        (jsTrim R)).1.length < ROOM_LIMIT := by
      rw [hlv2, htrim, hgr]
      simp [ROOM_LIMIT, hel]
    have hnm : c ∉ m1.erase c := hnd.not_mem_erase
    have hsa : setAdd (m1.erase c) c = m1.erase c ++ [c] := setAdd_of_not_mem hnm
    rw [joinRoom_add hne2 hlt, htrim, hlv2, hgr]
    refine ⟨setAdd (m1.erase c) c, lookupA_setEntry_self _ _ _, ?_,
      lookupA_setEntry_self _ _ _⟩
    rw [hsa, List.count_append]
    have hc0 : (m1.erase c).count c = 0 := List.count_eq_zero.2 hnm
    simp [hc0]

/-- C8: calling `leaveRoom` on a connection that is in no room is a no-op that
returns `none` and changes nothing, so a second consecutive leave equals
the first; and the sequence join, leave, join on the same room by the
same connection leaves the connection a member of the room exactly once
(count 1), attached to that room, with no residual duplicate entries. -/
theorem C8_leave_idem_roundtrip (st : SrvState) (c : Sock) (R : String) :
    (lookupA st.socketToRoom c = none → leaveRoom st c = (none, st, [])) ∧
    (keysNodup st.socketToRoom →
      leaveRoom (leaveRoom st c).2.1 c = (none, (leaveRoom st c).2.1, [])) ∧
    (jsTrim R = R → R ≠ "" → RegInv st →
      (getRoomSet (leaveRoom st c).2.1.rooms R).1.length < ROOM_LIMIT →
      ∃ mf : List Sock,
        lookupA (joinRoom (leaveRoom (joinRoom st c (some R)).1 c).2.1 c
          (some R)).1.rooms R = some mf ∧
        mf.count c = 1 ∧
        lookupA (joinRoom (leaveRoom (joinRoom st c (some R)).1 c).2.1 c
          (some R)).1.socketToRoom c = some R) := by
  refine ⟨fun h => leaveRoom_not_in h,
    fun hkey => leaveRoom_not_in (leaveRoom_socket_none hkey), ?_⟩
  intro htrim hne hinv hsucc
  have hne2 : ¬jsTrim R = "" := by
    rw [htrim]
    exact hne
  have hinvL : RegInv (leaveRoom st c).2.1 := leaveRoom_regInv c hinv
  have hlt : (getRoomSet (leaveRoom st c).2.1.rooms (jsTrim R)).1.length < ROOM_LIMIT := by
    rw [htrim]
    exact hsucc
  have hsk1 : lookupA (joinRoom st c (some R)).1.socketToRoom c = some R := by
    rw [joinRoom_add hne2 hlt, htrim]
    exact lookupA_setEntry_self _ _ _
  have hm1 : lookupA (joinRoom st c (some R)).1.rooms R =
      some (setAdd (getRoomSet (leaveRoom st c).2.1.rooms R).1 c) := by
    rw [joinRoom_add hne2 hlt, htrim]
    exact lookupA_setEntry_self _ _ _
  have hcm1 : c ∈ setAdd (getRoomSet (leaveRoom st c).2.1.rooms R).1 c :=
    self_mem_setAdd _ _
  have hnd1 : (setAdd (getRoomSet (leaveRoom st c).2.1.rooms R).1 c).Nodup :=
    setAdd_nodup (getRoomSet_fst_nodup hinvL.mnd R)
  have hlen1 : (setAdd (getRoomSet (leaveRoom st c).2.1.rooms R).1 c).length ≤ 2 := by
    have ha := length_setAdd_le (getRoomSet (leaveRoom st c).2.1.rooms R).1 c
    have hb : (getRoomSet (leaveRoom st c).2.1.rooms R).1.length < 2 := hsucc
    omega
  have hrk1 : keysNodup (joinRoom st c (some R)).1.rooms := by
    rw [joinRoom_add hne2 hlt, htrim]
    dsimp only
    rw [setEntry_getRoomSet]
    exact keysNodup_setEntry hinvL.rkey
  have hsk1nd : keysNodup (joinRoom st c (some R)).1.socketToRoom := by
    rw [joinRoom_add hne2 hlt, htrim]
    exact keysNodup_setEntry hinvL.skey
  exact leave_rejoin_core (joinRoom st c (some R)).1 c R
    (setAdd (getRoomSet (leaveRoom st c).2.1.rooms R).1 c)
    htrim hne hsk1 hm1 hcm1 hnd1 hlen1 hrk1 hsk1nd

/-- Witness for C8 on a concrete state: double leave is a no-op and the
join-leave-join round trip restores a single membership. -/
theorem C8_leave_idem_roundtrip_witness :
    (lookupA ({ rooms := [("b", [5])], socketToRoom := [(5, "b")], openS := fun _ => true } : SrvState).socketToRoom 9 = none →
      leaveRoom { rooms := [("b", [5])], socketToRoom := [(5, "b")], openS := fun _ => true } 9 =
        (none, { rooms := [("b", [5])], socketToRoom := [(5, "b")], openS := fun _ => true }, [])) ∧
    ∃ mf : List Sock,
      lookupA (joinRoom (leaveRoom (joinRoom
        { rooms := [("b", [5])], socketToRoom := [(5, "b")], openS := fun _ => true }
        9 (some "b")).1 9).2.1 9
        (some "b")).1.rooms "b" = some mf ∧
      mf.count 9 = 1 ∧
      lookupA (joinRoom (leaveRoom (joinRoom
        { rooms := [("b", [5])], socketToRoom := [(5, "b")], openS := fun _ => true }
        9 (some "b")).1 9).2.1 9
        (some "b")).1.socketToRoom 9 = some "b" := by
  have T := C8_leave_idem_roundtrip
    { rooms := [("b", [5])], socketToRoom := [(5, "b")], openS := fun _ => true } 9 "b"
  refine ⟨T.1, T.2.2 (by decide) (by decide) ?_ (by decide)⟩
  refine ⟨?_, ?_, ?_, ?_⟩
  · intro p hp
    simp only [List.mem_singleton] at hp
    subst hp
    simp
  · intro p hp
    simp only [List.mem_singleton] at hp
    subst hp
    simp
  · unfold roomKeysNodup keysNodup
    decide
  · unfold sockKeysNodup keysNodup
    decide

/-! ## Client playback queue (`App.jsx`, `socket.onmessage` / `playQueueRef`) -/

/-- One received audio chunk as it enters the playback chain: `ok` tells
whether decode+playback succeeds, `dur` is the time until its queue slot
resolves (`audio.onended` on success; `audio.onerror` or the rejection of
`audio.play()` on failure — every path calls `resolve`, so every chunk
has a resolution time). -/
structure Chunk where
  ok : Bool
  dur : Nat
  deriving DecidableEq, Repr

/-- Chaining `playQueueRef.current = playQueueRef.current.then(...)`: enqueueing a
chunk is a pure append to the arrival-order queue and never blocks the
caller. -/
def enqueueChunk (q : List Chunk) (c : Chunk) : List Chunk := q ++ [c]

/-- Denotation of the promise chain: starting at time `t`, each chunk's
playback interval begins when the previous slot resolved and ends when
its own slot resolves (failed chunks included, since their slot resolves
anyway). -/
def schedule (t : Nat) : List Chunk → List (Nat × Nat)
  | [] => []
  | c :: rest => (t, t + c.dur) :: schedule (t + c.dur) rest

theorem schedule_length (t : Nat) (l : List Chunk) :
    (schedule t l).length = l.length := by
  induction l generalizing t with
  | nil => rfl
  | cons c rest ih => simp [schedule, ih]

theorem schedule_chain (t : Nat) (l : List Chunk) :
    List.Chain' (fun a b => b.1 = a.2) (schedule t l) := by
  induction l generalizing t with
  | nil => simp [schedule]
  | cons c rest ih =>
    cases rest with
    | nil => simp [schedule]
    | cons d rest2 =>
      simp only [schedule]
      refine List.Chain'.cons rfl ?_
      have h := ih (t + c.dur)
      simpa [schedule] using h

theorem schedule_le (t : Nat) (l : List Chunk) :
    ∀ p ∈ schedule t l, p.1 ≤ p.2 := by
  induction l generalizing t with
  | nil => simp [schedule]
  | cons c rest ih =>
    intro p hp
    simp only [schedule, List.mem_cons] at hp
    rcases hp with rfl | hp
    · simp
    · exact ih (t + c.dur) p hp

theorem schedule_ok_irrelevant (t : Nat) (l : List Chunk) :
    schedule t (l.map (fun c => Chunk.mk false c.dur)) = schedule t l := by
  induction l generalizing t with
  | nil => rfl
  | cons c rest ih => simp [schedule, ih]

/-- C4: the playback chain is strictly sequential — chunk n+1's interval
starts exactly when chunk n's slot resolves, intervals are well formed
(start before end) and hence never overlap or reorder; every enqueued
chunk gets exactly one slot (the schedule has one interval per chunk), a
failing chunk resolves its slot like a succeeding one (the schedule is
unchanged if every chunk is marked failed), and enqueueing is a total,
non-blocking append. -/
theorem C4_playback_sequential (t : Nat) (q : List Chunk) (c : Chunk) :
    (schedule t q).length = q.length ∧
    List.Chain' (fun a b => b.1 = a.2) (schedule t q) ∧
    (∀ p ∈ schedule t q, p.1 ≤ p.2) ∧
    schedule t (q.map (fun ch => Chunk.mk false ch.dur)) = schedule t q ∧
    (schedule t (enqueueChunk q c)).length = q.length + 1 := by
  refine ⟨schedule_length t q, schedule_chain t q, schedule_le t q,
    schedule_ok_irrelevant t q, ?_⟩
  rw [schedule_length]
  simp [enqueueChunk]

/-- Witness for C4 on a concrete queue with one failing chunk. -/
theorem C4_playback_sequential_witness :
    (schedule 0 [Chunk.mk true 3, Chunk.mk false 2]).length = 2 ∧
    (0, 3).1 ≤ (0, 3).2 :=
  ⟨(C4_playback_sequential 0 [Chunk.mk true 3, Chunk.mk false 2] (Chunk.mk true 1)).1,
   (C4_playback_sequential 0 [Chunk.mk true 3, Chunk.mk false 2] (Chunk.mk true 1)).2.2.1
     (0, 3) (by decide)⟩

/-! ## Client capture pipeline (`App.jsx`, `startRecording` / `stopRecording`) -/

/-- State of the capture pipeline refs in `App.jsx`: `recorderActive`
(`recorderRef.current` holds a recorder whose state is not `inactive`),
`streamHeld` (`streamRef.current` holds a granted device stream),
`isRecording` (the React state flag) and `pendingAcq` (a `getUserMedia`
call has been issued and has not yet resolved). -/
structure CapState where
  recorderActive : Bool
  streamHeld : Bool
  isRecording : Bool
  pendingAcq : Bool
  deriving DecidableEq, Repr

/-- Events of the capture pipeline: a start intent (pointer down /
Space down), a stop intent (pointer up / Space up) and the resolution of
the pending device acquisition. -/
inductive CapEvent where
  | startIntent
  | stopIntent
  | acqResolve
  deriving DecidableEq, Repr

/-- One step of the capture pipeline, read off `startRecording` and
`stopRecording` in `App.jsx`:
* `startIntent`: `startRecording` returns early when `isRecording` is
  set, otherwise it awaits `getUserMedia` (acquisition pending);
* `stopIntent`: `stopRecording` stops an active recorder (whose `onstop`
  handler then releases the stream and clears `isRecording`; collapsed
  into one step here), else stops a held stream's tracks, else merely
  clears `isRecording` — it does nothing about a pending acquisition;
* `acqResolve`: the code after `await getUserMedia` in `startRecording`
  unconditionally stores the stream, creates and starts the recorder and
  sets `isRecording` — there is no cancellation check. -/
def capStep (st : CapState) : CapEvent → CapState
  | CapEvent.startIntent =>
    if st.isRecording then st else { st with pendingAcq := true }
  | CapEvent.stopIntent =>
    if st.recorderActive then
      { st with recorderActive := false, streamHeld := false, isRecording := false }
    else if st.streamHeld then
      { st with streamHeld := false, isRecording := false }
    else
      { st with isRecording := false }
  | CapEvent.acqResolve =>
    if st.pendingAcq then
      { st with pendingAcq := false, streamHeld := true, recorderActive := true,
                isRecording := true }
    else st

/-- Run the capture pipeline over a list of events. -/
def capRun (st : CapState) : List CapEvent → CapState
  | [] => st
  | e :: es => capRun (capStep st e) es

/-- Initial pipeline state: no recorder, no stream, not recording, no
pending acquisition. -/
def capInit : CapState := ⟨false, false, false, false⟩

/-- C5 (evaluation of the code at the failing input): when a stop intent
arrives between the start intent and the resolution of the device
acquisition, the pipeline nevertheless ends with `isRecording = true` and
the device stream held — it enters Streaming instead of the `Idle` final
state the specification requires, and the granted device is not
released. -/
theorem C5_stop_during_acquisition_bug :
    (capRun capInit
      [CapEvent.startIntent, CapEvent.stopIntent, CapEvent.acqResolve]).isRecording
        = true ∧
    (capRun capInit
      [CapEvent.startIntent, CapEvent.stopIntent, CapEvent.acqResolve]).streamHeld
        = true := by
  decide

/-! ## Client timeslice configuration (`App.jsx`) -/

/-- A JavaScript number as produced by `Number(timeslice)`: `NaN` or a
numeric value. -/
inductive JsNum where
  | nan
  | num (v : Int)
  deriving DecidableEq, Repr

/-- Defaulting `Number(timeslice) || 250`: the default 250 applies exactly when the
conversion yields `NaN` or `0` (the falsy numbers). -/
def timesliceOrDefault : JsNum → Int
  | JsNum.nan => 250
  | JsNum.num v => if v = 0 then 250 else v

/-- The `timeSliceMs` field of the `audio-config` message:
`timeSliceMs: Number(timeslice) || 250` in `App.jsx`. -/
def advertisedTimeSliceMs (t : JsNum) : Int := timesliceOrDefault t

/-- The interval actually passed to the recorder:
`recorder.start(Math.max(50, Number(timeslice) || 250))` in `App.jsx`. -/
def actualTimesliceMs (t : JsNum) : Int := max 50 (timesliceOrDefault t)

/-- C10 counterexample: at the configured value 0 (falsy), the advertised
`timeSliceMs` is 250, not the unclamped configured value 0, and although
0 is below 50 ms the advertised and actual intervals coincide (both 250)
— refuting both the claim's description of `timeSliceMs` and its
"differs for any configured interval below 50 ms" consequence. -/
theorem C10_timeslice_counterexample :
    advertisedTimeSliceMs (JsNum.num 0) = 250 ∧
    ¬advertisedTimeSliceMs (JsNum.num 0) = 0 ∧
    (0 : Int) < 50 ∧
    advertisedTimeSliceMs (JsNum.num 0) = actualTimesliceMs (JsNum.num 0) := by
  decide

/-- C10 (amended): the defaulting `Number(timeslice) || 250` applies to
both values — `NaN` and `0` advertise and run at 250 — and for every
configured value that is a nonzero number below 50 ms the advertised
`timeSliceMs` is the configured value while the actual emission interval
is clamped to 50 ms, so they differ; at or above 50 ms they agree. -/
theorem C10_timeslice_amended (v : Int) :
    (advertisedTimeSliceMs JsNum.nan = 250 ∧ actualTimesliceMs JsNum.nan = 250) ∧
    (advertisedTimeSliceMs (JsNum.num 0) = 250 ∧
      actualTimesliceMs (JsNum.num 0) = 250) ∧
    (v ≠ 0 → v < 50 →
      advertisedTimeSliceMs (JsNum.num v) = v ∧
      actualTimesliceMs (JsNum.num v) = 50 ∧
      advertisedTimeSliceMs (JsNum.num v) ≠ actualTimesliceMs (JsNum.num v)) ∧
    (50 ≤ v → actualTimesliceMs (JsNum.num v) = advertisedTimeSliceMs (JsNum.num v)) := by
  refine ⟨by decide, by decide, ?_, ?_⟩
  · intro hv0 hv50
    have hadv : advertisedTimeSliceMs (JsNum.num v) = v := by
      unfold advertisedTimeSliceMs timesliceOrDefault
      dsimp only
      rw [if_neg hv0]
    have hact : actualTimesliceMs (JsNum.num v) = 50 := by
      unfold actualTimesliceMs timesliceOrDefault
      dsimp only
      rw [if_neg hv0]
      omega
    refine ⟨hadv, hact, ?_⟩
    rw [hadv, hact]
    omega
  · intro hv
    have hv0 : v ≠ 0 := by omega
    unfold actualTimesliceMs advertisedTimeSliceMs timesliceOrDefault
    dsimp only
    rw [if_neg hv0]
    omega

/-- Witness for the amended C10 at the configured value 30. -/
theorem C10_timeslice_amended_witness :
    advertisedTimeSliceMs (JsNum.num 30) = 30 ∧
    actualTimesliceMs (JsNum.num 30) = 50 ∧
    advertisedTimeSliceMs (JsNum.num 30) ≠ actualTimesliceMs (JsNum.num 30) :=
  (C10_timeslice_amended 30).2.2.1 (by decide) (by decide)
